import Mathlib

/-!
Shallow embedding of the CD4067 16-channel analog multiplexer driver
(`src/Firmware/App/sensors/sensor_array.c`, a.k.a. `mux_cd4067.{h,c}`).

The driver owns a handle struct (`MUX_Handle_t`) holding a copied config,
the currently selected channel, an enabled flag, and a settling time in
microseconds.  Its side effects on the hardware (GPIO pin writes, the
busy-wait settle delay, and the ADC start/poll/get/stop sequence) are
modelled as an event trace in a `World`, together with a stream of raw
ADC conversion results (`adcValues`) indexed by a conversion counter.

All machine integers are modelled as `Nat` with explicit `%` where the C
code truncates: `HAL_ADC_GetValue` returns a `uint32_t` and the driver
assigns it to a `uint16_t`.  The busy-wait loop count in `delay_us` is
`(SystemCoreClock / 1000000) * us / 3` in `uint32_t` arithmetic; since
`SystemCoreClock < 2^32` and `us < 2^16`, the product is below `2^32`,
so plain `Nat` arithmetic is exact.
-/

/-- GPIO pin levels, as in the STM32 HAL: `RESET` = logic-low,
`SET` = logic-high. -/
inductive GPIO_PinState where
  | RESET
  | SET
deriving DecidableEq, Repr

/-- The two HAL status values this driver ever returns. -/
inductive HAL_StatusTypeDef where
  | HAL_OK
  | HAL_ERROR
deriving DecidableEq, Repr

/-- Observable hardware side effects of the driver, in call order.
`gpioWrite` is `HAL_GPIO_WritePin`; `delay` is the busy-wait loop of
`delay_us` carrying the number of loop iterations executed; the four
`adc*` events are the HAL ADC calls. -/
inductive Event where
  | gpioWrite (port pin : Nat) (st : GPIO_PinState)
  | delay (cycles : Nat)
  | adcStart (hadc : Nat)
  | adcPoll (hadc : Nat) (timeout : Nat)
  | adcGetValue (hadc : Nat)
  | adcStop (hadc : Nat)
deriving DecidableEq, Repr

/-- `MUX_Config_t`: four (port, pin) pairs for select lines S0–S3, one
(port, pin) pair for the active-low enable line, the ADC peripheral
handle and its input channel.  Ports, pins and the ADC handle are
abstract identifiers. -/
structure MUX_Config_t where
  s0_port : Nat
  s0_pin : Nat
  s1_port : Nat
  s1_pin : Nat
  s2_port : Nat
  s2_pin : Nat
  s3_port : Nat
  s3_pin : Nat
  en_port : Nat
  en_pin : Nat
  hadc : Nat
  adc_channel : Nat
deriving DecidableEq, Repr

/-- `MUX_Handle_t`: config copy plus mutable runtime state. -/
structure MUX_Handle_t where
  config : MUX_Config_t
  current_channel : Nat
  is_enabled : Bool
  settling_time_us : Nat
deriving DecidableEq, Repr

/-- The hardware world: `clk` is `SystemCoreClock`, `adcValues n` is the
raw `uint32_t` result of the `n`-th ADC conversion performed since the
start of the trace, `adcCount` counts conversions so far, and `trace`
records every hardware side effect in order. -/
structure World where
  clk : Nat
  adcValues : Nat → Nat
  adcCount : Nat
  trace : List Event

/-- `#define MUX_CHANNELS 16` -/
def MUX_CHANNELS : Nat := 16

/-- `#define MUX_ACTIVE_CHANNELS 14` -/
def MUX_ACTIVE_CHANNELS : Nat := 14

/-- `HAL_MAX_DELAY` (0xFFFFFFFF). -/
def HAL_MAX_DELAY : Nat := 4294967295

/-- `HAL_GPIO_WritePin`: drives one pin, recorded in the trace. -/
def HAL_GPIO_WritePin (port pin : Nat) (st : GPIO_PinState) (w : World) : World :=
  { w with trace := w.trace ++ [Event.gpioWrite port pin st] }

/-- Number of iterations of the `while(cycles--)` busy-wait loop in
`delay_us`: `cycles = (SystemCoreClock / 1000000) * us / 3`. -/
def delayCycles (clk us : Nat) : Nat :=
  clk / 1000000 * us / 3

/-- `delay_us`: approximate microsecond busy-wait; pure time, no state
change other than the recorded loop-iteration count. -/
def delay_us (us : Nat) (w : World) : World :=
  { w with trace := w.trace ++ [Event.delay (delayCycles w.clk us)] }

/-- `HAL_ADC_Start`. -/
def HAL_ADC_Start (hadc : Nat) (w : World) : World :=
  { w with trace := w.trace ++ [Event.adcStart hadc] }

/-- `HAL_ADC_PollForConversion` (blocks until conversion complete; in the
model the conversion always completes). -/
def HAL_ADC_PollForConversion (hadc : Nat) (timeout : Nat) (w : World) : World :=
  { w with trace := w.trace ++ [Event.adcPoll hadc timeout] }

/-- `HAL_ADC_GetValue`: returns the next raw conversion result as a
`uint32_t` and advances the conversion counter. -/
def HAL_ADC_GetValue (hadc : Nat) (w : World) : Nat × World :=
  (w.adcValues w.adcCount % 4294967296,
   { w with adcCount := w.adcCount + 1,
            trace := w.trace ++ [Event.adcGetValue hadc] })

/-- `HAL_ADC_Stop`. -/
def HAL_ADC_Stop (hadc : Nat) (w : World) : World :=
  { w with trace := w.trace ++ [Event.adcStop hadc] }

/-- `MUX_Init(hmux, config)`: null-pointer arguments are modelled as
`none`.  On success, copies the config, resets the runtime fields,
drives S0–S3 low and EN high (disabled), and returns `HAL_OK`. -/
def MUX_Init (hmux : Option MUX_Handle_t) (config : Option MUX_Config_t)
    (w : World) : HAL_StatusTypeDef × Option MUX_Handle_t × World :=
  match hmux, config with
  | some _, some cfg =>
    let h : MUX_Handle_t :=
      { config := cfg, current_channel := 0, is_enabled := false,
        settling_time_us := 10 }
    let w := HAL_GPIO_WritePin h.config.s0_port h.config.s0_pin GPIO_PinState.RESET w
    let w := HAL_GPIO_WritePin h.config.s1_port h.config.s1_pin GPIO_PinState.RESET w
    let w := HAL_GPIO_WritePin h.config.s2_port h.config.s2_pin GPIO_PinState.RESET w
    let w := HAL_GPIO_WritePin h.config.s3_port h.config.s3_pin GPIO_PinState.RESET w
    let w := HAL_GPIO_WritePin h.config.en_port h.config.en_pin GPIO_PinState.SET w
    (HAL_StatusTypeDef.HAL_OK, some h, w)
  | _, _ => (HAL_StatusTypeDef.HAL_ERROR, hmux, w)

/-- `MUX_SetSettlingTime(hmux, time_us)`. -/
def MUX_SetSettlingTime (hmux : MUX_Handle_t) (time_us : Nat) (w : World) :
    MUX_Handle_t × World :=
  ({ hmux with settling_time_us := time_us }, w)

/-- `MUX_Enable(hmux)`: EN = LOW (active-low), `is_enabled = true`. -/
def MUX_Enable (hmux : MUX_Handle_t) (w : World) : MUX_Handle_t × World :=
  let w := HAL_GPIO_WritePin hmux.config.en_port hmux.config.en_pin GPIO_PinState.RESET w
  ({ hmux with is_enabled := true }, w)

/-- `MUX_Disable(hmux)`: EN = HIGH, `is_enabled = false`. -/
def MUX_Disable (hmux : MUX_Handle_t) (w : World) : MUX_Handle_t × World :=
  let w := HAL_GPIO_WritePin hmux.config.en_port hmux.config.en_pin GPIO_PinState.SET w
  ({ hmux with is_enabled := false }, w)

/-- `MUX_SelectChannel(hmux, channel)`: out-of-range channels are a
silent no-op; otherwise drives S0–S3 with the channel's bits, stores
`current_channel`, then waits the settling time. -/
def MUX_SelectChannel (hmux : MUX_Handle_t) (channel : Nat) (w : World) :
    MUX_Handle_t × World :=
  if channel ≥ MUX_CHANNELS then
    (hmux, w)
  else
    let w := HAL_GPIO_WritePin hmux.config.s0_port hmux.config.s0_pin
      (if channel &&& 1 ≠ 0 then GPIO_PinState.SET else GPIO_PinState.RESET) w
    let w := HAL_GPIO_WritePin hmux.config.s1_port hmux.config.s1_pin
      (if channel &&& 2 ≠ 0 then GPIO_PinState.SET else GPIO_PinState.RESET) w
    let w := HAL_GPIO_WritePin hmux.config.s2_port hmux.config.s2_pin
      (if channel &&& 4 ≠ 0 then GPIO_PinState.SET else GPIO_PinState.RESET) w
    let w := HAL_GPIO_WritePin hmux.config.s3_port hmux.config.s3_pin
      (if channel &&& 8 ≠ 0 then GPIO_PinState.SET else GPIO_PinState.RESET) w
    let hmux := { hmux with current_channel := channel }
    let w := delay_us hmux.settling_time_us w
    (hmux, w)

/-- `MUX_ReadChannel(hmux, channel)`: enables the MUX if disabled,
selects the channel, then performs one ADC start/poll/get/stop
conversion.  The returned `uint16_t` truncates the `uint32_t` raw
value. -/
def MUX_ReadChannel (hmux : MUX_Handle_t) (channel : Nat) (w : World) :
    Nat × MUX_Handle_t × World :=
  let hw := if hmux.is_enabled = false then MUX_Enable hmux w else (hmux, w)
  let hw := MUX_SelectChannel hw.1 channel hw.2
  let h := hw.1
  let w := HAL_ADC_Start h.config.hadc hw.2
  let w := HAL_ADC_PollForConversion h.config.hadc HAL_MAX_DELAY w
  let vw := HAL_ADC_GetValue h.config.hadc w
  let value := vw.1 % 65536
  let w := HAL_ADC_Stop h.config.hadc vw.2
  (value, h, w)

/-- The `for(i = 0; i < num_channels; i++) data[i] = MUX_ReadChannel(hmux, i)`
loop of `MUX_ReadAllChannels`, over the explicit list of channel
indices; returns the values written into `data` in order. -/
def readLoop : MUX_Handle_t → World → List Nat → List Nat × MUX_Handle_t × World
  | h, w, [] => ([], h, w)
  | h, w, i :: rest =>
    match MUX_ReadChannel h i w with
    | (v, h2, w2) =>
      match readLoop h2 w2 rest with
      | (vs, h3, w3) => (v :: vs, h3, w3)

/-- `MUX_ReadAllChannels(hmux, data, num_channels)`: a null `data`
pointer is modelled by `dataNull = true`; on success the returned list
is the buffer contents `data[0..num_channels-1]`. -/
def MUX_ReadAllChannels (hmux : MUX_Handle_t) (dataNull : Bool)
    (num_channels : Nat) (w : World) :
    HAL_StatusTypeDef × List Nat × MUX_Handle_t × World :=
  if dataNull = true ∨ num_channels > MUX_CHANNELS then
    (HAL_StatusTypeDef.HAL_ERROR, [], hmux, w)
  else
    let hw := if hmux.is_enabled = false then MUX_Enable hmux w else (hmux, w)
    let r := readLoop hw.1 hw.2 (List.range num_channels)
    (HAL_StatusTypeDef.HAL_OK, r.1, r.2.1, r.2.2)

/-- `MUX_GetCurrentChannel(hmux)`: pure accessor. -/
def MUX_GetCurrentChannel (hmux : MUX_Handle_t) : Nat :=
  hmux.current_channel

/-- One driver operation on an initialized handle, for reachability
statements. -/
inductive MUX_Op where
  | setSettlingTime (t : Nat)
  | enable
  | disable
  | selectChannel (c : Nat)
  | readChannel (c : Nat)
  | readAll (dataNull : Bool) (n : Nat)
deriving DecidableEq, Repr

/-- Run one operation on (handle, world). -/
def runOp (s : MUX_Handle_t × World) (op : MUX_Op) : MUX_Handle_t × World :=
  match op with
  | MUX_Op.setSettlingTime t => MUX_SetSettlingTime s.1 t s.2
  | MUX_Op.enable => MUX_Enable s.1 s.2
  | MUX_Op.disable => MUX_Disable s.1 s.2
  | MUX_Op.selectChannel c => MUX_SelectChannel s.1 c s.2
  | MUX_Op.readChannel c => (MUX_ReadChannel s.1 c s.2).2
  | MUX_Op.readAll b n =>
    match MUX_ReadAllChannels s.1 b n s.2 with
    | (_, _, h, w) => (h, w)

/-- Run a sequence of operations. -/
def runOps (s : MUX_Handle_t × World) (ops : List MUX_Op) : MUX_Handle_t × World :=
  ops.foldl runOp s

/-- Fold step for `lastWrite`: a GPIO write to the given pin overrides
the accumulator. -/
def lwStep (port pin : Nat) (acc : Option GPIO_PinState) (e : Event) :
    Option GPIO_PinState :=
  match e with
  | Event.gpioWrite p n s => if p = port ∧ n = pin then some s else acc
  | _ => acc

/-- The level to which the pin `(port, pin)` was last driven in the
trace, if it was ever driven. -/
def lastWrite (port pin : Nat) (tr : List Event) : Option GPIO_PinState :=
  tr.foldl (lwStep port pin) none

/-- The enable line is wired to a pin distinct from each select line
(the five physical control lines of §6 of the spec). -/
def enDistinct (cfg : MUX_Config_t) : Prop :=
  (cfg.en_port, cfg.en_pin) ≠ (cfg.s0_port, cfg.s0_pin) ∧
  (cfg.en_port, cfg.en_pin) ≠ (cfg.s1_port, cfg.s1_pin) ∧
  (cfg.en_port, cfg.en_pin) ≠ (cfg.s2_port, cfg.s2_pin) ∧
  (cfg.en_port, cfg.en_pin) ≠ (cfg.s3_port, cfg.s3_pin)

instance (cfg : MUX_Config_t) : Decidable (enDistinct cfg) := by
  unfold enDistinct
  infer_instance

/-- `is_enabled` mirrors the enable line: `true` iff the line was last
driven to its active (logic-low) level, `false` iff to its inactive
(logic-high) level. -/
def enMirrors (h : MUX_Handle_t) (w : World) : Prop :=
  lastWrite h.config.en_port h.config.en_pin w.trace =
    some (if h.is_enabled then GPIO_PinState.RESET else GPIO_PinState.SET)

/-! ### Concrete example values -/

/-- A concrete board wiring: five distinct (port, pin) lines. -/
def cfgEx : MUX_Config_t :=
  { s0_port := 0, s0_pin := 1, s1_port := 0, s1_pin := 2,
    s2_port := 0, s2_pin := 3, s3_port := 0, s3_pin := 4,
    en_port := 0, en_pin := 5, hadc := 7, adc_channel := 3 }

/-- A concrete initial world: 72 MHz core clock, ADC stream `100 + n`. -/
def wEx : World :=
  { clk := 72000000, adcValues := fun n => 100 + n, adcCount := 0, trace := [] }

/-- A concrete handle in the state `MUX_Init` leaves it in. -/
def hEx : MUX_Handle_t :=
  { config := cfgEx, current_channel := 0, is_enabled := false,
    settling_time_us := 10 }

/-- A concrete handle with arbitrary prior contents (for the
"regardless of prior contents" parts). -/
def hJunk : MUX_Handle_t :=
  { config := cfgEx, current_channel := 77, is_enabled := true,
    settling_time_us := 999 }

/-! ### Helper lemmas -/

/-- The C truthiness test `(c & 2^i) ? … : …` agrees with `Nat.testBit`. -/
lemma and_pow_ne_zero_iff_testBit (c i : Nat) :
    (c &&& 2 ^ i ≠ 0) ↔ c.testBit i = true := by
  rw [Nat.and_two_pow]
  cases h : c.testBit i <;> simp [h]

lemma and_one_ne_zero_iff_testBit (c : Nat) :
    (c &&& 1 ≠ 0) ↔ c.testBit 0 = true := by
  have h := and_pow_ne_zero_iff_testBit c 0
  rw [pow_zero] at h
  exact h

lemma and_two_ne_zero_iff_testBit (c : Nat) :
    (c &&& 2 ≠ 0) ↔ c.testBit 1 = true := by
  have := and_pow_ne_zero_iff_testBit c 1
  simpa using this

lemma and_four_ne_zero_iff_testBit (c : Nat) :
    (c &&& 4 ≠ 0) ↔ c.testBit 2 = true := by
  have := and_pow_ne_zero_iff_testBit c 2
  simpa using this

lemma and_eight_ne_zero_iff_testBit (c : Nat) :
    (c &&& 8 ≠ 0) ↔ c.testBit 3 = true := by
  have := and_pow_ne_zero_iff_testBit c 3
  simpa using this

/-- Unfolding of `MUX_SelectChannel` for an in-range channel, with the
pin levels phrased through `Nat.testBit`. -/
lemma MUX_SelectChannel_lt (h : MUX_Handle_t) (c : Nat) (w : World)
    (hc : c < 16) :
    MUX_SelectChannel h c w =
      ({ h with current_channel := c },
       { w with trace := w.trace ++
          [Event.gpioWrite h.config.s0_port h.config.s0_pin
             (if c.testBit 0 then GPIO_PinState.SET else GPIO_PinState.RESET),
           Event.gpioWrite h.config.s1_port h.config.s1_pin
             (if c.testBit 1 then GPIO_PinState.SET else GPIO_PinState.RESET),
           Event.gpioWrite h.config.s2_port h.config.s2_pin
             (if c.testBit 2 then GPIO_PinState.SET else GPIO_PinState.RESET),
           Event.gpioWrite h.config.s3_port h.config.s3_pin
             (if c.testBit 3 then GPIO_PinState.SET else GPIO_PinState.RESET),
           Event.delay (delayCycles w.clk h.settling_time_us)] }) := by
  have hnot : ¬ c ≥ MUX_CHANNELS := by
    simp [MUX_CHANNELS]
    omega
  simp only [MUX_SelectChannel, hnot, if_false, HAL_GPIO_WritePin, delay_us,
    ← and_one_ne_zero_iff_testBit, ← and_two_ne_zero_iff_testBit,
    ← and_four_ne_zero_iff_testBit, ← and_eight_ne_zero_iff_testBit,
    List.append_assoc, List.cons_append, List.nil_append]

/-- Out-of-range channels: `MUX_SelectChannel` returns immediately. -/
lemma MUX_SelectChannel_ge (h : MUX_Handle_t) (c : Nat) (w : World)
    (hc : 16 ≤ c) :
    MUX_SelectChannel h c w = (h, w) := by
  have : c ≥ MUX_CHANNELS := by simpa [MUX_CHANNELS] using hc
  simp [MUX_SelectChannel, this]

/-! ### C1, C2 -/

/-- C1: For every channel value in 0..15, `MUX_SelectChannel` drives the
four select lines to exactly the binary decomposition of the channel
(S0 = bit 0, S1 = bit 1, S2 = bit 2, S3 = bit 3; logic-high where the
bit is 1, logic-low where it is 0) and sets `current_channel` to that
channel, so that `MUX_GetCurrentChannel` afterwards returns it. -/
theorem MUX_SelectChannel_binary_decomposition (h : MUX_Handle_t) (c : Nat)
    (w : World) (hc : c < 16) :
    MUX_SelectChannel h c w =
      ({ h with current_channel := c },
       { w with trace := w.trace ++
          [Event.gpioWrite h.config.s0_port h.config.s0_pin
             (if c.testBit 0 then GPIO_PinState.SET else GPIO_PinState.RESET),
           Event.gpioWrite h.config.s1_port h.config.s1_pin
             (if c.testBit 1 then GPIO_PinState.SET else GPIO_PinState.RESET),
           Event.gpioWrite h.config.s2_port h.config.s2_pin
             (if c.testBit 2 then GPIO_PinState.SET else GPIO_PinState.RESET),
           Event.gpioWrite h.config.s3_port h.config.s3_pin
             (if c.testBit 3 then GPIO_PinState.SET else GPIO_PinState.RESET),
           Event.delay (delayCycles w.clk h.settling_time_us)] }) ∧
    MUX_GetCurrentChannel (MUX_SelectChannel h c w).1 = c := by
  refine ⟨MUX_SelectChannel_lt h c w hc, ?_⟩
  rw [MUX_SelectChannel_lt h c w hc]
  simp [MUX_GetCurrentChannel]

/-- Witness for C1 at channel 5 (S0=1, S1=0, S2=1, S3=0). -/
theorem MUX_SelectChannel_binary_decomposition_witness :
    MUX_SelectChannel hEx 5 wEx =
      ({ hEx with current_channel := 5 },
       { wEx with trace := wEx.trace ++
          [Event.gpioWrite hEx.config.s0_port hEx.config.s0_pin
             (if (5 : Nat).testBit 0 then GPIO_PinState.SET else GPIO_PinState.RESET),
           Event.gpioWrite hEx.config.s1_port hEx.config.s1_pin
             (if (5 : Nat).testBit 1 then GPIO_PinState.SET else GPIO_PinState.RESET),
           Event.gpioWrite hEx.config.s2_port hEx.config.s2_pin
             (if (5 : Nat).testBit 2 then GPIO_PinState.SET else GPIO_PinState.RESET),
           Event.gpioWrite hEx.config.s3_port hEx.config.s3_pin
             (if (5 : Nat).testBit 3 then GPIO_PinState.SET else GPIO_PinState.RESET),
           Event.delay (delayCycles wEx.clk hEx.settling_time_us)] }) ∧
    MUX_GetCurrentChannel (MUX_SelectChannel hEx 5 wEx).1 = 5 :=
  MUX_SelectChannel_binary_decomposition hEx 5 wEx (by decide)

/-- C2: `MUX_Init` with non-null handle and config returns `HAL_OK`,
stores a copy of the config, sets `current_channel = 0`,
`is_enabled = false`, `settling_time_us = 10`, drives the four select
lines low and the active-low enable line high (inactive), regardless of
the handle's prior contents. -/
theorem MUX_Init_success_spec (h0 : MUX_Handle_t) (cfg : MUX_Config_t)
    (w : World) :
    MUX_Init (some h0) (some cfg) w =
      (HAL_StatusTypeDef.HAL_OK,
       some { config := cfg, current_channel := 0, is_enabled := false,
              settling_time_us := 10 },
       { w with trace := w.trace ++
          [Event.gpioWrite cfg.s0_port cfg.s0_pin GPIO_PinState.RESET,
           Event.gpioWrite cfg.s1_port cfg.s1_pin GPIO_PinState.RESET,
           Event.gpioWrite cfg.s2_port cfg.s2_pin GPIO_PinState.RESET,
           Event.gpioWrite cfg.s3_port cfg.s3_pin GPIO_PinState.RESET,
           Event.gpioWrite cfg.en_port cfg.en_pin GPIO_PinState.SET] }) := by
  simp [MUX_Init, HAL_GPIO_WritePin, List.append_assoc]

/-! ### Handle projections and reachability invariants -/

/-- Handle component of `MUX_SelectChannel`. -/
lemma MUX_SelectChannel_fst (h : MUX_Handle_t) (c : Nat) (w : World) :
    (MUX_SelectChannel h c w).1 =
      if c ≥ MUX_CHANNELS then h else { h with current_channel := c } := by
  unfold MUX_SelectChannel
  split <;> rfl

/-- Handle component of `MUX_ReadChannel`: always enabled afterwards;
`current_channel` updated only for in-range channels. -/
lemma MUX_ReadChannel_snd_fst (h : MUX_Handle_t) (c : Nat) (w : World) :
    (MUX_ReadChannel h c w).2.1 =
      if c ≥ MUX_CHANNELS then { h with is_enabled := true }
      else { h with is_enabled := true, current_channel := c } := by
  rcases h with ⟨cfg, cur, en, st⟩
  cases en <;>
    · unfold MUX_ReadChannel MUX_Enable
      rw [MUX_SelectChannel_fst]
      split <;> rfl

/-- The enable-if-disabled prelude of the read operations: handle. -/
lemma preEnable_fst (h : MUX_Handle_t) (w : World) :
    (if h.is_enabled = false then MUX_Enable h w else (h, w)).1 =
      { h with is_enabled := true } := by
  rcases h with ⟨cfg, cur, en, st⟩
  cases en <;> simp [MUX_Enable, HAL_GPIO_WritePin]

/-- The enable-if-disabled prelude of the read operations: world. -/
lemma preEnable_snd (h : MUX_Handle_t) (w : World) :
    (if h.is_enabled = false then MUX_Enable h w else (h, w)).2 =
      { w with trace := w.trace ++
          (if h.is_enabled then []
           else [Event.gpioWrite h.config.en_port h.config.en_pin
                   GPIO_PinState.RESET]) } := by
  cases hen : h.is_enabled <;> simp [hen, MUX_Enable, HAL_GPIO_WritePin]

/-- Unfolding equation for `readLoop` on a cons cell. -/
lemma readLoop_cons (h : MUX_Handle_t) (w : World) (i : Nat) (rest : List Nat) :
    readLoop h w (i :: rest) =
      ((MUX_ReadChannel h i w).1 ::
         (readLoop (MUX_ReadChannel h i w).2.1 (MUX_ReadChannel h i w).2.2 rest).1,
       (readLoop (MUX_ReadChannel h i w).2.1 (MUX_ReadChannel h i w).2.2 rest).2) :=
  rfl

/-- `readLoop` keeps `current_channel` in range. -/
lemma readLoop_current_lt (l : List Nat) :
    ∀ h w, h.current_channel < 16 → (readLoop h w l).2.1.current_channel < 16 := by
  induction l with
  | nil => intro h w hh; simpa [readLoop] using hh
  | cons i rest ih =>
    intro h w hh
    rw [readLoop_cons]
    apply ih
    rw [MUX_ReadChannel_snd_fst]
    split
    · exact hh
    · next hge => simp only [MUX_CHANNELS] at hge; simp; omega

/-- `readLoop` keeps the handle enabled. -/
lemma readLoop_enabled (l : List Nat) :
    ∀ h w, h.is_enabled = true → (readLoop h w l).2.1.is_enabled = true := by
  induction l with
  | nil => intro h w hh; simpa [readLoop] using hh
  | cons i rest ih =>
    intro h w _
    rw [readLoop_cons]
    apply ih
    rw [MUX_ReadChannel_snd_fst]
    split <;> rfl

/-- `runOp` on a batch read, in projection form. -/
lemma runOp_readAll (s : MUX_Handle_t × World) (b : Bool) (n : Nat) :
    runOp s (MUX_Op.readAll b n) =
      ((MUX_ReadAllChannels s.1 b n s.2).2.2.1,
       (MUX_ReadAllChannels s.1 b n s.2).2.2.2) :=
  rfl

/-- Handle component of `MUX_ReadAllChannels`. -/
lemma MUX_ReadAllChannels_handle (h : MUX_Handle_t) (b : Bool) (n : Nat) (w : World) :
    (MUX_ReadAllChannels h b n w).2.2.1 =
      if b = true ∨ n > MUX_CHANNELS then h
      else (readLoop (if h.is_enabled = false then MUX_Enable h w else (h, w)).1
                     (if h.is_enabled = false then MUX_Enable h w else (h, w)).2
                     (List.range n)).2.1 := by
  unfold MUX_ReadAllChannels
  split <;> rfl

/-- Every driver operation keeps `current_channel` below 16. -/
lemma runOp_current_lt (s : MUX_Handle_t × World) (op : MUX_Op)
    (hs : s.1.current_channel < 16) : (runOp s op).1.current_channel < 16 := by
  cases op with
  | setSettlingTime t => simpa [runOp, MUX_SetSettlingTime] using hs
  | enable => simpa [runOp, MUX_Enable, HAL_GPIO_WritePin] using hs
  | disable => simpa [runOp, MUX_Disable, HAL_GPIO_WritePin] using hs
  | selectChannel c =>
    show (MUX_SelectChannel s.1 c s.2).1.current_channel < 16
    rw [MUX_SelectChannel_fst]
    split
    · exact hs
    · next hge => simp only [MUX_CHANNELS] at hge; simp; omega
  | readChannel c =>
    show (MUX_ReadChannel s.1 c s.2).2.1.current_channel < 16
    rw [MUX_ReadChannel_snd_fst]
    split
    · exact hs
    · next hge => simp only [MUX_CHANNELS] at hge; simp; omega
  | readAll b n =>
    rw [runOp_readAll]
    show (MUX_ReadAllChannels s.1 b n s.2).2.2.1.current_channel < 16
    rw [MUX_ReadAllChannels_handle]
    split
    · exact hs
    · exact readLoop_current_lt _ _ _ (by rw [preEnable_fst]; exact hs)

/-- Unfolding equation for `runOps` on a cons cell. -/
lemma runOps_cons (s : MUX_Handle_t × World) (op : MUX_Op) (rest : List MUX_Op) :
    runOps s (op :: rest) = runOps (runOp s op) rest :=
  rfl

/-- Any sequence of driver operations keeps `current_channel` below 16. -/
lemma runOps_current_lt (ops : List MUX_Op) :
    ∀ s, s.1.current_channel < 16 → (runOps s ops).1.current_channel < 16 := by
  induction ops with
  | nil => intro s hs; simpa [runOps] using hs
  | cons op rest ih =>
    intro s hs
    rw [runOps_cons]
    exact ih _ (runOp_current_lt s op hs)

/-- The world a successful `MUX_Init` of `hJunk`/`cfgEx` leaves `wEx` in. -/
def wInit : World :=
  { clk := 72000000, adcValues := fun n => 100 + n, adcCount := 0,
    trace := [Event.gpioWrite 0 1 GPIO_PinState.RESET,
              Event.gpioWrite 0 2 GPIO_PinState.RESET,
              Event.gpioWrite 0 3 GPIO_PinState.RESET,
              Event.gpioWrite 0 4 GPIO_PinState.RESET,
              Event.gpioWrite 0 5 GPIO_PinState.SET] }

/-! ### C3, C4 -/

/-- C3: For every channel value ≥ 16, `MUX_SelectChannel` is a silent
no-op — no error is reported (the function returns nothing), no select
line is driven, and the handle (every field) and world are unchanged;
consequently `current_channel` stays in [0,15] in every state reachable
from a successful `MUX_Init` by driver operations. -/
theorem MUX_SelectChannel_oob_noop (h : MUX_Handle_t) (w : World) (c : Nat)
    (ops : List MUX_Op) (h0 h1 : MUX_Handle_t) (cfg : MUX_Config_t)
    (w0 w1 : World) (st : HAL_StatusTypeDef)
    (hc : 16 ≤ c)
    (hinit : MUX_Init (some h0) (some cfg) w0 = (st, some h1, w1)) :
    MUX_SelectChannel h c w = (h, w) ∧
    (runOps (h1, w1) ops).1.current_channel < 16 := by
  constructor
  · exact MUX_SelectChannel_ge h c w hc
  · have hspec := MUX_Init_success_spec h0 cfg w0
    rw [hinit] at hspec
    have hh1 : h1 = { config := cfg, current_channel := 0, is_enabled := false,
                      settling_time_us := 10 } := by
      have := congrArg (fun p => p.2.1) hspec
      simpa using this
    apply runOps_current_lt
    rw [hh1]
    show (0 : Nat) < 16
    decide

/-- Witness for C3: channel 20 on a live handle, two operations after
a concrete successful init. -/
theorem MUX_SelectChannel_oob_noop_witness :
    MUX_SelectChannel hJunk 20 wEx = (hJunk, wEx) ∧
    (runOps (hEx, wInit) [MUX_Op.enable, MUX_Op.selectChannel 3]).1.current_channel < 16 :=
  MUX_SelectChannel_oob_noop hJunk wEx 20 [MUX_Op.enable, MUX_Op.selectChannel 3]
    hJunk hEx cfgEx wEx wInit HAL_StatusTypeDef.HAL_OK (by decide) rfl

/-- C4: The driver's only error returns: `MUX_Init` errors exactly when
handle or config is null, `MUX_ReadAllChannels` errors exactly when the
buffer is null or `count > 16`; each error return leaves the handle and
the world (no GPIO or ADC events) unchanged and performs no reads. -/
theorem MUX_error_returns_exact :
    (∀ (hm : Option MUX_Handle_t) (cfg : Option MUX_Config_t) (w : World),
       (MUX_Init hm cfg w).1 = HAL_StatusTypeDef.HAL_ERROR ↔
         (hm = none ∨ cfg = none)) ∧
    (∀ (hm : Option MUX_Handle_t) (cfg : Option MUX_Config_t) (w : World),
       hm = none ∨ cfg = none →
         MUX_Init hm cfg w = (HAL_StatusTypeDef.HAL_ERROR, hm, w)) ∧
    (∀ (h : MUX_Handle_t) (dataNull : Bool) (n : Nat) (w : World),
       (MUX_ReadAllChannels h dataNull n w).1 = HAL_StatusTypeDef.HAL_ERROR ↔
         (dataNull = true ∨ 16 < n)) ∧
    (∀ (h : MUX_Handle_t) (dataNull : Bool) (n : Nat) (w : World),
       dataNull = true ∨ 16 < n →
         MUX_ReadAllChannels h dataNull n w =
           (HAL_StatusTypeDef.HAL_ERROR, [], h, w)) := by
  refine ⟨?_, ?_, ?_, ?_⟩
  · intro hm cfg w
    match hm, cfg with
    | none, _ => simp [MUX_Init]
    | some a, none => simp [MUX_Init]
    | some a, some b => simp [MUX_Init]
  · intro hm cfg w hnull
    match hm, cfg with
    | none, _ => simp [MUX_Init]
    | some a, none => simp [MUX_Init]
    | some a, some b => simp at hnull
  · intro h dataNull n w
    by_cases hcond : dataNull = true ∨ n > MUX_CHANNELS
    · rw [MUX_ReadAllChannels, if_pos hcond]
      simpa [MUX_CHANNELS] using hcond
    · rw [MUX_ReadAllChannels, if_neg hcond]
      simp only [MUX_CHANNELS, gt_iff_lt] at hcond
      simpa using hcond
  · intro h dataNull n w hcond
    have : dataNull = true ∨ n > MUX_CHANNELS := by
      simpa [MUX_CHANNELS] using hcond
    rw [MUX_ReadAllChannels, if_pos this]

/-- Witness for C4: a null config on init and an oversized batch read,
both rejected atomically. -/
theorem MUX_error_returns_exact_witness :
    MUX_Init (some hJunk) none wEx = (HAL_StatusTypeDef.HAL_ERROR, some hJunk, wEx) ∧
    MUX_ReadAllChannels hEx false 17 wEx = (HAL_StatusTypeDef.HAL_ERROR, [], hEx, wEx) :=
  ⟨MUX_error_returns_exact.2.1 (some hJunk) none wEx (Or.inr rfl),
   MUX_error_returns_exact.2.2.2 hEx false 17 wEx (Or.inr (by decide))⟩

/-! ### Batch-read characterization -/

/-- Full projection spec of `MUX_ReadChannel` on an enabled handle with
an in-range channel: returns the next ADC conversion (truncated to
16 bits), stores the channel, consumes one conversion, preserves the
ADC stream and the clock. -/
lemma MUX_ReadChannel_enabled_spec (h : MUX_Handle_t) (c : Nat) (w : World)
    (hen : h.is_enabled = true) (hc : c < 16) :
    (MUX_ReadChannel h c w).1 = w.adcValues w.adcCount % 4294967296 % 65536 ∧
    (MUX_ReadChannel h c w).2.1 = { h with current_channel := c } ∧
    (MUX_ReadChannel h c w).2.2.adcCount = w.adcCount + 1 ∧
    (MUX_ReadChannel h c w).2.2.adcValues = w.adcValues ∧
    (MUX_ReadChannel h c w).2.2.clk = w.clk := by
  simp [MUX_ReadChannel, hen, MUX_SelectChannel_lt h c w hc,
    HAL_ADC_Start, HAL_ADC_PollForConversion, HAL_ADC_GetValue, HAL_ADC_Stop]

/-- Full spec of `readLoop` on an enabled handle over in-range
channels: values are successive ADC conversions in order, the final
`current_channel` is the last channel of the list, and the handle stays
otherwise unchanged. -/
lemma readLoop_spec (l : List Nat) :
    ∀ h w, h.is_enabled = true → (∀ x ∈ l, x < 16) →
      (readLoop h w l).1 =
        (List.range l.length).map
          (fun k => w.adcValues (w.adcCount + k) % 4294967296 % 65536) ∧
      (readLoop h w l).2.1 =
        { h with current_channel := l.getLastD h.current_channel } ∧
      (readLoop h w l).2.2.adcCount = w.adcCount + l.length ∧
      (readLoop h w l).2.2.adcValues = w.adcValues ∧
      (readLoop h w l).2.2.clk = w.clk := by
  induction l with
  | nil =>
    intro h w hen hl
    refine ⟨by simp [readLoop], by simp [readLoop], by simp [readLoop],
      by simp [readLoop], by simp [readLoop]⟩
  | cons i rest ih =>
    intro h w hen hl
    have hi : i < 16 := hl i (by simp)
    have hrest : ∀ x ∈ rest, x < 16 := fun x hx => hl x (by simp [hx])
    obtain ⟨hv, hh, hcnt, hvals, hclk⟩ := MUX_ReadChannel_enabled_spec h i w hen hi
    have hen2 : (MUX_ReadChannel h i w).2.1.is_enabled = true := by
      rw [hh]; exact hen
    obtain ⟨ih1, ih2, ih3, ih4, ih5⟩ :=
      ih (MUX_ReadChannel h i w).2.1 (MUX_ReadChannel h i w).2.2 hen2 hrest
    rw [readLoop_cons]
    refine ⟨?_, ?_, ?_, ?_, ?_⟩
    · show (MUX_ReadChannel h i w).1 :: _ = _
      rw [hv, ih1, hcnt, hvals]
      have hlen : (i :: rest).length = rest.length + 1 := rfl
      rw [hlen, List.range_succ_eq_map, List.map_cons, List.map_map]
      congr 1
      apply List.map_congr_left
      intro k _
      have hadd : w.adcCount + 1 + k = w.adcCount + (k + 1) := by omega
      simp [Function.comp, hadd]
    · show (readLoop _ _ rest).2.1 = _
      rw [ih2, hh]
      rw [List.getLastD_cons]
    · show (readLoop _ _ rest).2.2.adcCount = _
      rw [ih3, hcnt]
      have : (i :: rest).length = rest.length + 1 := rfl
      rw [this]
      omega
    · show (readLoop _ _ rest).2.2.adcValues = _
      rw [ih4, hvals]
    · show (readLoop _ _ rest).2.2.clk = _
      rw [ih5, hclk]

/-- The last element of `List.range n` with default `d`. -/
lemma range_getLastD (n : Nat) (d : Nat) :
    (List.range n).getLastD d = if n = 0 then d else n - 1 := by
  cases n with
  | zero => simp
  | succ m =>
    rw [List.range_succ]
    simp

/-- Unfolding of a successful `MUX_ReadAllChannels` (non-null buffer,
`count ≤ 16`). -/
lemma MUX_ReadAllChannels_success_unfold (h : MUX_Handle_t) (w : World) (n : Nat)
    (hn : n ≤ 16) :
    MUX_ReadAllChannels h false n w =
      (HAL_StatusTypeDef.HAL_OK,
       (readLoop (if h.is_enabled = false then MUX_Enable h w else (h, w)).1
                 (if h.is_enabled = false then MUX_Enable h w else (h, w)).2
                 (List.range n)).1,
       (readLoop (if h.is_enabled = false then MUX_Enable h w else (h, w)).1
                 (if h.is_enabled = false then MUX_Enable h w else (h, w)).2
                 (List.range n)).2.1,
       (readLoop (if h.is_enabled = false then MUX_Enable h w else (h, w)).1
                 (if h.is_enabled = false then MUX_Enable h w else (h, w)).2
                 (List.range n)).2.2) := by
  have hcond : ¬(false = true ∨ n > MUX_CHANNELS) := by
    simp only [MUX_CHANNELS]
    simp
    omega
  rw [MUX_ReadAllChannels, if_neg hcond]

/-! ### C5, C6 -/

/-- C5: For every `count ≤ 16` with a non-null buffer,
`MUX_ReadAllChannels` returns `HAL_OK` and the buffer holds, in
ascending channel order, one sample per channel — the `k`-th entry is
the `k`-th ADC conversion performed (the single-channel read sequence of
`MUX_ReadChannel`, truncated to 16 bits); with `count ≥ 1` it leaves
`current_channel = count - 1`, in particular 13 for `count = 14`. -/
theorem MUX_ReadAllChannels_success_spec (h : MUX_Handle_t) (w : World) (n : Nat)
    (hn : n ≤ 16) :
    (MUX_ReadAllChannels h false n w).1 = HAL_StatusTypeDef.HAL_OK ∧
    (MUX_ReadAllChannels h false n w).2.1 =
      (List.range n).map
        (fun k => w.adcValues (w.adcCount + k) % 4294967296 % 65536) ∧
    (1 ≤ n → (MUX_ReadAllChannels h false n w).2.2.1.current_channel = n - 1) ∧
    (n = 14 → (MUX_ReadAllChannels h false n w).2.2.1.current_channel = 13) := by
  have hrange : ∀ x ∈ List.range n, x < 16 := by
    intro x hx
    exact lt_of_lt_of_le (List.mem_range.mp hx) hn
  have hen : (if h.is_enabled = false then MUX_Enable h w else (h, w)).1.is_enabled = true := by
    rw [preEnable_fst]
  obtain ⟨s1, s2, s3, s4, s5⟩ :=
    readLoop_spec (List.range n)
      (if h.is_enabled = false then MUX_Enable h w else (h, w)).1
      (if h.is_enabled = false then MUX_Enable h w else (h, w)).2
      hen hrange
  rw [MUX_ReadAllChannels_success_unfold h w n hn]
  refine ⟨rfl, ?_, ?_, ?_⟩
  · show (readLoop _ _ (List.range n)).1 = _
    rw [s1, preEnable_snd, List.length_range]
  · intro hn1
    show (readLoop _ _ (List.range n)).2.1.current_channel = n - 1
    rw [s2, preEnable_fst]
    show (List.range n).getLastD _ = n - 1
    rw [range_getLastD]
    simp
    omega
  · intro hn14
    show (readLoop _ _ (List.range n)).2.1.current_channel = 13
    rw [s2, preEnable_fst]
    show (List.range n).getLastD _ = 13
    rw [range_getLastD, hn14]
    simp

/-- Witness for C5: a 14-channel sweep on a freshly initialized handle
fills the buffer in ascending channel order and leaves
`current_channel = 13`. -/
theorem MUX_ReadAllChannels_success_spec_witness :
    (MUX_ReadAllChannels hEx false 14 wEx).1 = HAL_StatusTypeDef.HAL_OK ∧
    (MUX_ReadAllChannels hEx false 14 wEx).2.1 =
      (List.range 14).map
        (fun k => wEx.adcValues (wEx.adcCount + k) % 4294967296 % 65536) ∧
    (1 ≤ 14 → (MUX_ReadAllChannels hEx false 14 wEx).2.2.1.current_channel = 14 - 1) ∧
    (14 = 14 → (MUX_ReadAllChannels hEx false 14 wEx).2.2.1.current_channel = 13) :=
  MUX_ReadAllChannels_success_spec hEx wEx 14 (by decide)

/-- C6: `MUX_ReadChannel` (on any handle, any channel) leaves the handle
enabled — a disabled handle is enabled before sampling — and so does
every successful `MUX_ReadAllChannels`; neither read ever transitions
the handle back to disabled. -/
theorem MUX_Read_forces_enable (h : MUX_Handle_t) (c : Nat) (w : World)
    (n : Nat) (hn : n ≤ 16) :
    (MUX_ReadChannel h c w).2.1.is_enabled = true ∧
    (MUX_ReadAllChannels h false n w).2.2.1.is_enabled = true := by
  constructor
  · rw [MUX_ReadChannel_snd_fst]
    split <;> rfl
  · rw [MUX_ReadAllChannels_success_unfold h w n hn]
    show (readLoop _ _ (List.range n)).2.1.is_enabled = true
    exact readLoop_enabled _ _ _ (by rw [preEnable_fst])

/-- Witness for C6: a read on the freshly initialized (disabled) handle
and a 3-channel sweep both end enabled. -/
theorem MUX_Read_forces_enable_witness :
    (MUX_ReadChannel hEx 2 wEx).2.1.is_enabled = true ∧
    (MUX_ReadAllChannels hEx false 3 wEx).2.2.1.is_enabled = true :=
  MUX_Read_forces_enable hEx 2 wEx 3 (by decide)

/-! ### lastWrite lemmas -/

/-- `lastWrite` over an appended trace folds the suffix onto the prefix
result. -/
lemma lastWrite_append (p n : Nat) (tr1 tr2 : List Event) :
    lastWrite p n (tr1 ++ tr2) = tr2.foldl (lwStep p n) (lastWrite p n tr1) := by
  unfold lastWrite
  rw [List.foldl_append]

/-- A write to the observed pin overrides the last level. -/
lemma lastWrite_snoc_same (p n : Nat) (tr : List Event) (s : GPIO_PinState) :
    lastWrite p n (tr ++ [Event.gpioWrite p n s]) = some s := by
  rw [lastWrite_append]
  simp [lwStep]

/-- A write to a different pin leaves the last level unchanged. -/
lemma lastWrite_snoc_other (p n p2 n2 : Nat) (tr : List Event)
    (s : GPIO_PinState) (hne : ¬(p2 = p ∧ n2 = n)) :
    lastWrite p n (tr ++ [Event.gpioWrite p2 n2 s]) = lastWrite p n tr := by
  rw [lastWrite_append]
  simp [lwStep, hne]

/-- A delay event does not drive any pin. -/
lemma lastWrite_snoc_delay (p n : Nat) (tr : List Event) (k : Nat) :
    lastWrite p n (tr ++ [Event.delay k]) = lastWrite p n tr := by
  rw [lastWrite_append]
  rfl

/-- ADC events do not drive any pin. -/
lemma lastWrite_append_adc (p n : Nat) (tr : List Event) (a t : Nat) :
    lastWrite p n (tr ++ [Event.adcStart a, Event.adcPoll a t,
                          Event.adcGetValue a, Event.adcStop a]) =
      lastWrite p n tr := by
  rw [lastWrite_append]
  rfl

/-! ### C8, C9, C10 -/

/-- C8: `MUX_Enable` and `MUX_Disable` are idempotent in handle state
and enable-line level, and `MUX_Enable` followed by `MUX_Disable`
leaves the line at its inactive (logic-high) level with
`is_enabled = false`. -/
theorem MUX_Enable_Disable_idempotent (h : MUX_Handle_t) (w : World) :
    ((MUX_Enable (MUX_Enable h w).1 (MUX_Enable h w).2).1 = (MUX_Enable h w).1 ∧
     lastWrite h.config.en_port h.config.en_pin
         (MUX_Enable (MUX_Enable h w).1 (MUX_Enable h w).2).2.trace =
       lastWrite h.config.en_port h.config.en_pin (MUX_Enable h w).2.trace) ∧
    ((MUX_Disable (MUX_Disable h w).1 (MUX_Disable h w).2).1 = (MUX_Disable h w).1 ∧
     lastWrite h.config.en_port h.config.en_pin
         (MUX_Disable (MUX_Disable h w).1 (MUX_Disable h w).2).2.trace =
       lastWrite h.config.en_port h.config.en_pin (MUX_Disable h w).2.trace) ∧
    ((MUX_Disable (MUX_Enable h w).1 (MUX_Enable h w).2).1.is_enabled = false ∧
     lastWrite h.config.en_port h.config.en_pin
         (MUX_Disable (MUX_Enable h w).1 (MUX_Enable h w).2).2.trace =
       some GPIO_PinState.SET) := by
  refine ⟨⟨rfl, ?_⟩, ⟨rfl, ?_⟩, rfl, ?_⟩ <;>
    · simp [MUX_Enable, MUX_Disable, HAL_GPIO_WritePin, lastWrite_snoc_same]
      rw [lastWrite_append]
      simp [lwStep]

/-- C9: `MUX_SetSettlingTime` stores any 16-bit value (zero included)
into `settling_time_us` without validation and changes nothing else —
neither the other handle fields nor the world (no GPIO/ADC events);
with the value zero, the settle busy-wait loop of a subsequent channel
selection executes zero iterations. -/
theorem MUX_SetSettlingTime_pure (h : MUX_Handle_t) (w : World) (t : Nat)
    (ht : t < 65536) :
    MUX_SetSettlingTime h t w = ({ h with settling_time_us := t }, w) ∧
    (MUX_SetSettlingTime h t w).1.current_channel = h.current_channel ∧
    (MUX_SetSettlingTime h t w).1.is_enabled = h.is_enabled ∧
    (MUX_SetSettlingTime h t w).1.config = h.config ∧
    (MUX_SetSettlingTime h t w).2 = w ∧
    delayCycles w.clk ((MUX_SetSettlingTime h 0 w).1.settling_time_us) = 0 := by
  refine ⟨rfl, rfl, rfl, rfl, rfl, ?_⟩
  simp [MUX_SetSettlingTime, delayCycles]

/-- Witness for C9 at the value zero. -/
theorem MUX_SetSettlingTime_pure_witness :
    MUX_SetSettlingTime hEx 0 wEx = ({ hEx with settling_time_us := 0 }, wEx) ∧
    (MUX_SetSettlingTime hEx 0 wEx).1.current_channel = hEx.current_channel ∧
    (MUX_SetSettlingTime hEx 0 wEx).1.is_enabled = hEx.is_enabled ∧
    (MUX_SetSettlingTime hEx 0 wEx).1.config = hEx.config ∧
    (MUX_SetSettlingTime hEx 0 wEx).2 = wEx ∧
    delayCycles wEx.clk ((MUX_SetSettlingTime hEx 0 wEx).1.settling_time_us) = 0 :=
  MUX_SetSettlingTime_pure hEx wEx 0 (by decide)

/-- Full spec of `MUX_ReadChannel` for an out-of-range channel: the
inner channel select is a no-op, but the enable (if needed) and the
whole ADC conversion still happen. -/
lemma MUX_ReadChannel_ge_spec (h : MUX_Handle_t) (c : Nat)
    (w : World) (hc : 16 ≤ c) :
    MUX_ReadChannel h c w =
      (w.adcValues w.adcCount % 4294967296 % 65536,
       { h with is_enabled := true },
       { clk := w.clk, adcValues := w.adcValues, adcCount := w.adcCount + 1,
         trace := w.trace ++
           (if h.is_enabled then []
            else [Event.gpioWrite h.config.en_port h.config.en_pin
                    GPIO_PinState.RESET]) ++
           [Event.adcStart h.config.hadc,
            Event.adcPoll h.config.hadc HAL_MAX_DELAY,
            Event.adcGetValue h.config.hadc,
            Event.adcStop h.config.hadc] }) := by
  have hsel : ∀ (h' : MUX_Handle_t) (w' : World),
      MUX_SelectChannel h' c w' = (h', w') :=
    fun h' w' => MUX_SelectChannel_ge h' c w' hc
  rcases h with ⟨cfg, cur, en, st⟩
  cases en <;>
    simp [MUX_ReadChannel, MUX_Enable, hsel, HAL_GPIO_WritePin, HAL_ADC_Start,
      HAL_ADC_PollForConversion, HAL_ADC_GetValue, HAL_ADC_Stop,
      List.append_assoc]

/-- C10: For every channel ≥ 16, `MUX_ReadChannel` does not reject the
argument: it still enables the multiplexer if disabled, performs no
select-line write and leaves `current_channel` (and the other handle
fields) unchanged, yet still runs a full ADC start/poll/get/stop
conversion and returns the sample — taken from whichever channel the
hardware still has selected. -/
theorem MUX_ReadChannel_oob_still_samples (h : MUX_Handle_t) (c : Nat)
    (w : World) (hc : 16 ≤ c) :
    MUX_ReadChannel h c w =
      (w.adcValues w.adcCount % 4294967296 % 65536,
       { h with is_enabled := true },
       { clk := w.clk, adcValues := w.adcValues, adcCount := w.adcCount + 1,
         trace := w.trace ++
           (if h.is_enabled then []
            else [Event.gpioWrite h.config.en_port h.config.en_pin
                    GPIO_PinState.RESET]) ++
           [Event.adcStart h.config.hadc,
            Event.adcPoll h.config.hadc HAL_MAX_DELAY,
            Event.adcGetValue h.config.hadc,
            Event.adcStop h.config.hadc] }) :=
  MUX_ReadChannel_ge_spec h c w hc

/-- Witness for C10: channel 16 on the freshly initialized (disabled)
handle. -/
theorem MUX_ReadChannel_oob_still_samples_witness :
    MUX_ReadChannel hEx 16 wEx =
      (wEx.adcValues wEx.adcCount % 4294967296 % 65536,
       { hEx with is_enabled := true },
       { clk := wEx.clk, adcValues := wEx.adcValues, adcCount := wEx.adcCount + 1,
         trace := wEx.trace ++
           (if hEx.is_enabled then []
            else [Event.gpioWrite hEx.config.en_port hEx.config.en_pin
                    GPIO_PinState.RESET]) ++
           [Event.adcStart hEx.config.hadc,
            Event.adcPoll hEx.config.hadc HAL_MAX_DELAY,
            Event.adcGetValue hEx.config.hadc,
            Event.adcStop hEx.config.hadc] }) :=
  MUX_ReadChannel_oob_still_samples hEx 16 wEx (by decide)

/-- Full spec of `MUX_ReadChannel` for an in-range channel: enable if
needed, the four select-line writes and the settle delay, then the ADC
conversion. -/
lemma MUX_ReadChannel_lt_spec (h : MUX_Handle_t) (c : Nat) (w : World)
    (hc : c < 16) :
    MUX_ReadChannel h c w =
      (w.adcValues w.adcCount % 4294967296 % 65536,
       { h with is_enabled := true, current_channel := c },
       { clk := w.clk, adcValues := w.adcValues, adcCount := w.adcCount + 1,
         trace := w.trace ++
           (if h.is_enabled then []
            else [Event.gpioWrite h.config.en_port h.config.en_pin
                    GPIO_PinState.RESET]) ++
           [Event.gpioWrite h.config.s0_port h.config.s0_pin
              (if c.testBit 0 then GPIO_PinState.SET else GPIO_PinState.RESET),
            Event.gpioWrite h.config.s1_port h.config.s1_pin
              (if c.testBit 1 then GPIO_PinState.SET else GPIO_PinState.RESET),
            Event.gpioWrite h.config.s2_port h.config.s2_pin
              (if c.testBit 2 then GPIO_PinState.SET else GPIO_PinState.RESET),
            Event.gpioWrite h.config.s3_port h.config.s3_pin
              (if c.testBit 3 then GPIO_PinState.SET else GPIO_PinState.RESET),
            Event.delay (delayCycles w.clk h.settling_time_us)] ++
           [Event.adcStart h.config.hadc,
            Event.adcPoll h.config.hadc HAL_MAX_DELAY,
            Event.adcGetValue h.config.hadc,
            Event.adcStop h.config.hadc] }) := by
  rcases h with ⟨cfg, cur, en, st⟩
  cases en <;>
    simp [MUX_ReadChannel, MUX_Enable, MUX_SelectChannel_lt _ c _ hc,
      HAL_GPIO_WritePin, HAL_ADC_Start, HAL_ADC_PollForConversion,
      HAL_ADC_GetValue, HAL_ADC_Stop, List.append_assoc]

/-! ### The enable-line mirror invariant (C7) -/

/-- The C7 invariant, strengthened with "the config is never changed". -/
def enInv (cfg : MUX_Config_t) (s : MUX_Handle_t × World) : Prop :=
  s.1.config = cfg ∧ enMirrors s.1 s.2

/-- The select-line and delay events of a channel switch do not touch
the enable line when the five lines are distinct. -/
lemma lastWrite_select_block (cfg : MUX_Config_t) (hdist : enDistinct cfg)
    (tr : List Event) (b0 b1 b2 b3 : GPIO_PinState) (k : Nat) :
    lastWrite cfg.en_port cfg.en_pin
      (tr ++ [Event.gpioWrite cfg.s0_port cfg.s0_pin b0,
              Event.gpioWrite cfg.s1_port cfg.s1_pin b1,
              Event.gpioWrite cfg.s2_port cfg.s2_pin b2,
              Event.gpioWrite cfg.s3_port cfg.s3_pin b3,
              Event.delay k]) =
      lastWrite cfg.en_port cfg.en_pin tr := by
  obtain ⟨d0, d1, d2, d3⟩ := hdist
  have h0 : ¬(cfg.s0_port = cfg.en_port ∧ cfg.s0_pin = cfg.en_pin) := by
    rintro ⟨a, b⟩
    exact d0 (by rw [a, b])
  have h1 : ¬(cfg.s1_port = cfg.en_port ∧ cfg.s1_pin = cfg.en_pin) := by
    rintro ⟨a, b⟩
    exact d1 (by rw [a, b])
  have h2 : ¬(cfg.s2_port = cfg.en_port ∧ cfg.s2_pin = cfg.en_pin) := by
    rintro ⟨a, b⟩
    exact d2 (by rw [a, b])
  have h3 : ¬(cfg.s3_port = cfg.en_port ∧ cfg.s3_pin = cfg.en_pin) := by
    rintro ⟨a, b⟩
    exact d3 (by rw [a, b])
  rw [lastWrite_append]
  simp [lwStep, h0, h1, h2, h3]

/-- `MUX_Enable` establishes the mirror invariant. -/
lemma enInv_enable (cfg : MUX_Config_t) (s : MUX_Handle_t × World)
    (hI : enInv cfg s) : enInv cfg (MUX_Enable s.1 s.2) := by
  refine ⟨hI.1, ?_⟩
  unfold enMirrors
  show lastWrite s.1.config.en_port s.1.config.en_pin
      (s.2.trace ++ [Event.gpioWrite s.1.config.en_port s.1.config.en_pin
        GPIO_PinState.RESET]) = _
  rw [lastWrite_snoc_same]
  rfl

/-- `MUX_Disable` establishes the mirror invariant. -/
lemma enInv_disable (cfg : MUX_Config_t) (s : MUX_Handle_t × World)
    (hI : enInv cfg s) : enInv cfg (MUX_Disable s.1 s.2) := by
  refine ⟨hI.1, ?_⟩
  unfold enMirrors
  show lastWrite s.1.config.en_port s.1.config.en_pin
      (s.2.trace ++ [Event.gpioWrite s.1.config.en_port s.1.config.en_pin
        GPIO_PinState.SET]) = _
  rw [lastWrite_snoc_same]
  rfl

/-- `MUX_SelectChannel` preserves the mirror invariant. -/
lemma enInv_select (cfg : MUX_Config_t) (c : Nat) (s : MUX_Handle_t × World)
    (hdist : enDistinct cfg) (hI : enInv cfg s) :
    enInv cfg (MUX_SelectChannel s.1 c s.2) := by
  obtain ⟨hcfg, hm⟩ := hI
  by_cases hge : 16 ≤ c
  · rw [MUX_SelectChannel_ge s.1 c s.2 hge]
    exact ⟨hcfg, hm⟩
  · have hc : c < 16 := by omega
    rw [MUX_SelectChannel_lt s.1 c s.2 hc]
    refine ⟨hcfg, ?_⟩
    unfold enMirrors at hm ⊢
    dsimp only at hm ⊢
    rw [hcfg] at hm ⊢
    rw [lastWrite_select_block cfg hdist]
    exact hm

/-- The enable-if-disabled prelude preserves the mirror invariant. -/
lemma enInv_preEnable (cfg : MUX_Config_t) (s : MUX_Handle_t × World)
    (hI : enInv cfg s) :
    enInv cfg (if s.1.is_enabled = false then MUX_Enable s.1 s.2 else s) := by
  by_cases hen : s.1.is_enabled = false
  · rw [if_pos hen]
    exact enInv_enable cfg s hI
  · rw [if_neg hen]
    exact hI

/-- `MUX_ReadChannel` preserves the mirror invariant. -/
lemma enInv_readChannel (cfg : MUX_Config_t) (c : Nat) (s : MUX_Handle_t × World)
    (hdist : enDistinct cfg) (hI : enInv cfg s) :
    enInv cfg ((MUX_ReadChannel s.1 c s.2).2) := by
  obtain ⟨hcfg, hm⟩ := hI
  by_cases hge : 16 ≤ c
  · rw [MUX_ReadChannel_ge_spec s.1 c s.2 hge]
    refine ⟨hcfg, ?_⟩
    unfold enMirrors at hm ⊢
    dsimp only at hm ⊢
    rw [lastWrite_append_adc]
    cases hen : s.1.is_enabled
    · simp [hen, lastWrite_snoc_same]
    · simpa [hen] using hm
  · rw [MUX_ReadChannel_lt_spec s.1 c s.2 (by omega)]
    refine ⟨hcfg, ?_⟩
    unfold enMirrors at hm ⊢
    dsimp only at hm ⊢
    rw [hcfg] at hm ⊢
    rw [lastWrite_append_adc, lastWrite_select_block cfg hdist]
    cases hen : s.1.is_enabled
    · simp [hen, lastWrite_snoc_same]
    · simpa [hen] using hm

/-- `readLoop` preserves the mirror invariant. -/
lemma enInv_readLoop (cfg : MUX_Config_t) (l : List Nat) :
    ∀ h w, enDistinct cfg → enInv cfg (h, w) →
      enInv cfg (readLoop h w l).2 := by
  induction l with
  | nil => intro h w _ hI; exact hI
  | cons i rest ih =>
    intro h w hdist hI
    rw [readLoop_cons]
    show enInv cfg (readLoop (MUX_ReadChannel h i w).2.1
      (MUX_ReadChannel h i w).2.2 rest).2
    exact ih _ _ hdist (enInv_readChannel cfg i (h, w) hdist hI)

/-- Every driver operation preserves the mirror invariant. -/
lemma enInv_runOp (cfg : MUX_Config_t) (s : MUX_Handle_t × World) (op : MUX_Op)
    (hdist : enDistinct cfg) (hI : enInv cfg s) : enInv cfg (runOp s op) := by
  cases op with
  | setSettlingTime t => exact ⟨hI.1, hI.2⟩
  | enable => exact enInv_enable cfg s hI
  | disable => exact enInv_disable cfg s hI
  | selectChannel c => exact enInv_select cfg c s hdist hI
  | readChannel c => exact enInv_readChannel cfg c s hdist hI
  | readAll b n =>
    rw [runOp_readAll]
    by_cases hcond : (b = true ∨ n > MUX_CHANNELS)
    · rw [MUX_ReadAllChannels, if_pos hcond]
      exact hI
    · rw [MUX_ReadAllChannels, if_neg hcond]
      exact enInv_readLoop cfg (List.range n) _ _ hdist
        (enInv_preEnable cfg s hI)

/-- Sequences of driver operations preserve the mirror invariant. -/
lemma enInv_runOps (cfg : MUX_Config_t) (ops : List MUX_Op) :
    ∀ s, enDistinct cfg → enInv cfg s → enInv cfg (runOps s ops) := by
  induction ops with
  | nil => intro s _ hI; exact hI
  | cons op rest ih =>
    intro s hdist hI
    rw [runOps_cons]
    exact ih _ hdist (enInv_runOp cfg s op hdist hI)

/-! ### C7 -/

/-- C7: In every state reachable from a successful `MUX_Init` (with the
five control lines physically distinct) by any sequence of driver
operations, `is_enabled` mirrors the enable-line output: the line was
last driven low (active) iff the field is `true`, last driven high
(inactive) iff the field is `false`. -/
theorem MUX_is_enabled_mirrors_enable_line (cfg : MUX_Config_t)
    (h0 h1 : MUX_Handle_t) (w0 w1 : World) (st : HAL_StatusTypeDef)
    (ops : List MUX_Op)
    (hdist : enDistinct cfg)
    (hinit : MUX_Init (some h0) (some cfg) w0 = (st, some h1, w1)) :
    enMirrors (runOps (h1, w1) ops).1 (runOps (h1, w1) ops).2 := by
  have hspec := MUX_Init_success_spec h0 cfg w0
  rw [hinit] at hspec
  have hh1 : h1 = { config := cfg, current_channel := 0, is_enabled := false,
                    settling_time_us := 10 } := by
    have := congrArg (fun p => p.2.1) hspec
    simpa using this
  have hw1 : w1 = { w0 with trace := w0.trace ++
      [Event.gpioWrite cfg.s0_port cfg.s0_pin GPIO_PinState.RESET,
       Event.gpioWrite cfg.s1_port cfg.s1_pin GPIO_PinState.RESET,
       Event.gpioWrite cfg.s2_port cfg.s2_pin GPIO_PinState.RESET,
       Event.gpioWrite cfg.s3_port cfg.s3_pin GPIO_PinState.RESET,
       Event.gpioWrite cfg.en_port cfg.en_pin GPIO_PinState.SET] } := by
    have := congrArg (fun p => p.2.2) hspec
    simpa using this
  have hbase : enInv cfg (h1, w1) := by
    refine ⟨by rw [hh1], ?_⟩
    unfold enMirrors
    rw [hh1, hw1]
    dsimp only
    rw [lastWrite_append]
    simp [lwStep]
  exact (enInv_runOps cfg ops (h1, w1) hdist hbase).2

/-- Witness for C7: a read (which implicitly enables), an explicit
disable, and a channel select after a concrete successful init. -/
theorem MUX_is_enabled_mirrors_enable_line_witness :
    enMirrors
      (runOps (hEx, wInit)
        [MUX_Op.readChannel 2, MUX_Op.disable, MUX_Op.selectChannel 1]).1
      (runOps (hEx, wInit)
        [MUX_Op.readChannel 2, MUX_Op.disable, MUX_Op.selectChannel 1]).2 :=
  MUX_is_enabled_mirrors_enable_line cfgEx hJunk hEx wEx wInit
    HAL_StatusTypeDef.HAL_OK
    [MUX_Op.readChannel 2, MUX_Op.disable, MUX_Op.selectChannel 1]
    (by decide) rfl
